import Mathlib

/-!
# GraphicLab1: line primitives and the Bresenham rasterizer

A shallow embedding of `src/main.cpp`.

* `qreal` (a C++ `double`) is modelled by `ℚ` with exact arithmetic: every finite
  `double` is a rational, the operations are taken without rounding. This is the code's
  arithmetic wherever no operation rounds, in particular on integer coordinates in
  `InRange`, where every value is an integer below `2^53`. What is stated for non-integral
  coordinates concerns only what rounding does not enter: the loop counter and its bound,
  the conversions `int(..)` of the arguments, the labels, and which routine runs on which
  order of the end points.
* `int` is modelled by `ℤ`, without overflow, and `int(q)`, the implicit `qreal → int`
  conversion at `drawPoint(int, int)` included, is truncation toward zero (`toInt`), also
  where the C++ conversion is undefined. The properties of the rasterizer that depend on
  this carry the hypothesis `InRange` on the coordinates, which keeps every `int` of the
  code inside the 32-bit range.
* A `for` loop becomes a function that is structurally recursive on a step budget;
  the guard of the loop is tested at every step as in the source, and
  `drawLineLowLoop_fuel` / `drawLineHighLoop_fuel` show that the budget handed to
  the loops is never what stops them.
* The painter is modelled by what is sent to it: the sequence of `drawPoint`
  calls (`points`) and the sequence of `drawText` calls (`labels`).
* The Qt primitive behind `QtLineAdapter` is modelled by the state its accessors read and
  write; `QLineF::length` and `QLineF::setLength` are parameters.
* `MainWindow::keyPressEvent` is a step function on `(lines[0], lines[1], index)` and the
  key code.
-/

namespace GraphicLab1

/-- A pixel: the two `int` arguments of `QPainter::drawPoint(int, int)`. -/
abbrev Pixel := ℤ × ℤ

/-- The C++ conversion `int(q)` of a `qreal`: truncation toward zero. -/
def toInt (q : ℚ) : ℤ := if 0 ≤ q then ⌊q⌋ else ⌈q⌉

/-- Number of iterations left in `for (v = ...; v <= bound; v++)` when the counter is `v`. -/
def loopFuel (v : ℤ) (bound : ℚ) : ℕ := (⌊bound⌋ + 1 - v).toNat

/-! ## CustomLine: the rasterizer -/

/-- The `for` loop of `CustomLine::drawLineLow` (main.cpp 195-204): `x` is an `int`,
`y` and `d` are `qreal`s, `y` is truncated when it is handed to `drawPoint`. The sums
`y + sy` and those on `d` are exact here; in the source they are `double` operations, which
round when the operands are not integers. -/
def drawLineLowLoop (x1 : ℚ) (sy : ℤ) (dx dy : ℚ) : ℕ → ℤ → ℚ → ℚ → List Pixel
  | 0, _, _, _ => []
  | fuel + 1, x, y, d =>
    if (x : ℚ) ≤ x1 then
      (x, toInt y) ::
        (if d > 0 then drawLineLowLoop x1 sy dx dy fuel (x + 1) (y + sy) (d + 2 * (dy - dx))
         else drawLineLowLoop x1 sy dx dy fuel (x + 1) y (d + 2 * dy))
    else []

/-- `CustomLine::drawLineLow` (main.cpp 187-205): the pixels sent to `drawPoint`, in order. -/
def drawLineLow (x0 y0 x1 y1 : ℚ) : List Pixel :=
  let dx := x1 - x0
  let dy := y1 - y0
  let sy : ℤ := if dy < 0 then -1 else 1
  let dy := dy * sy
  let d := 2 * dy - dx
  let y := y0
  drawLineLowLoop x1 sy dx dy (loopFuel (toInt x0) x1) (toInt x0) y d

/-- The `for` loop of `CustomLine::drawLineHigh` (main.cpp 176-184): `x` and `y` are
`int`s, `d` is a `qreal`. -/
def drawLineHighLoop (y2 : ℚ) (sx : ℤ) (dx dy : ℚ) : ℕ → ℤ → ℤ → ℚ → List Pixel
  | 0, _, _, _ => []
  | fuel + 1, x, y, d =>
    if (y : ℚ) ≤ y2 then
      (x, y) ::
        (if d > 0 then drawLineHighLoop y2 sx dx dy fuel (x + sx) (y + 1) (d + 2 * (dx - dy))
         else drawLineHighLoop y2 sx dx dy fuel x (y + 1) (d + 2 * dx))
    else []

/-- `CustomLine::drawLineHigh` (main.cpp 166-185): the pixels sent to `drawPoint`, in order. -/
def drawLineHigh (x1 y1 x2 y2 : ℚ) : List Pixel :=
  let dx := x2 - x1
  let dy := y2 - y1
  let sx : ℤ := if dx < 0 then -1 else 1
  let dx := dx * sx
  let d := 2 * dx - dy
  let x := toInt x1
  drawLineHighLoop y2 sx dx dy (loopFuel (toInt y1) y2) x (toInt y1) d

/-- What one call of `CustomLine::drawLine` sends to the painter. -/
structure Drawing where
  /-- The `drawPoint` calls, in order -/
  points : List Pixel
  /-- The `drawText` calls, in order: position and text -/
  labels : List (ℤ × ℤ × String)
  deriving DecidableEq, Repr

/-- `CustomLine::drawLine` (main.cpp 147-164): octant dispatch, then the two labels. The
differences in the octant test are exact here; in the source they are `double` differences,
the same values whenever the coordinates are integers in range. -/
def drawLine (x1 y1 x2 y2 : ℚ) : Drawing :=
  { points :=
      if |y2 - y1| < |x2 - x1| then
        if x1 > x2 then drawLineLow x2 y2 x1 y1 else drawLineLow x1 y1 x2 y2
      else
        if y1 > y2 then drawLineHigh x2 y2 x1 y1 else drawLineHigh x1 y1 x2 y2
    labels := [(toInt x1, toInt y1 - 5, "A2"), (toInt x2, toInt y2 - 5, "B2")] }

/-! ## CustomLine: the pose state -/

/-- The data members `origin`, `length`, `angle` of `CustomLine` (main.cpp 207-209). -/
structure CustomLine where
  /-- Field `origin` (a `QPointF`) -/
  origin : ℚ × ℚ
  /-- Field `length` -/
  length : ℚ
  /-- Field `angle`, in degrees -/
  angle : ℚ
  deriving DecidableEq, Repr

/-- `CustomLine::move` (main.cpp 87-91). -/
def CustomLine.move (s : CustomLine) (dx dy : ℤ) : CustomLine :=
  { s with origin := (s.origin.1 + dx, s.origin.2 + dy) }

/-- `CustomLine::rotateClockwise` (main.cpp 93-96). -/
def CustomLine.rotateClockwise (s : CustomLine) : CustomLine :=
  { s with angle := s.angle + 30 }

/-- `CustomLine::rotateCounterClockwise` (main.cpp 98-110). -/
def CustomLine.rotateCounterClockwise (s : CustomLine) : CustomLine :=
  { s with angle := s.angle - 30 }

/-- `CustomLine::resize` (main.cpp 112-118). -/
def CustomLine.resize (s : CustomLine) (delta : ℤ) : CustomLine :=
  let length := s.length + delta
  { s with length := if length < 0 then 0 else length }

/-! ## QtLineAdapter: the host-delegated line -/

/-- A `QLineF`: two end points. -/
structure QLineF where
  /-- First end point -/
  p1 : ℚ × ℚ
  /-- Second end point -/
  p2 : ℚ × ℚ
  deriving DecidableEq, Repr

/-- The state reached through the members of `QtLineAdapter` (main.cpp 66-69): the
position, rotation and geometry of the `QGraphicsLineItem`, and the position of the
label `p2`. -/
structure QtLineAdapter where
  /-- Position of the line item, moved by `moveBy` -/
  pos : ℚ × ℚ
  /-- Rotation of the line item, read by `rotation()` and written by `setRotation` -/
  rotation : ℚ
  /-- Geometry of the line item, read by `line()` and written by `setLine` -/
  line : QLineF
  /-- Position of the label item `p2` -/
  labelB : ℚ × ℚ
  deriving DecidableEq, Repr

/-- `QtLineAdapter::move` (main.cpp 47-49): `moveBy` adds the offsets to the position. -/
def QtLineAdapter.move (s : QtLineAdapter) (dx dy : ℤ) : QtLineAdapter :=
  { s with pos := (s.pos.1 + dx, s.pos.2 + dy) }

/-- `QtLineAdapter::rotateClockwise` (main.cpp 51-53). -/
def QtLineAdapter.rotateClockwise (s : QtLineAdapter) : QtLineAdapter :=
  { s with rotation := s.rotation + 30 }

/-- `QtLineAdapter::rotateCounterClockwise` (main.cpp 55-57). -/
def QtLineAdapter.rotateCounterClockwise (s : QtLineAdapter) : QtLineAdapter :=
  { s with rotation := s.rotation - 30 }

/-- The argument of `l.setLength(...)` in `QtLineAdapter::resize` (main.cpp 61),
`(l.length() + delta) ?: 1`, where `len` is the value of `l.length()`: the GNU
conditional with omitted middle operand yields its first operand when that is
nonzero and the last operand otherwise. -/
def QtLineAdapter.resizeLength (len : ℚ) (delta : ℤ) : ℚ :=
  if len + delta ≠ 0 then len + delta else 1

/-- `QtLineAdapter::resize` (main.cpp 59-64). The host functions `QLineF::length` and
`QLineF::setLength` are parameters. -/
def QtLineAdapter.resize (length : QLineF → ℚ) (setLength : QLineF → ℚ → QLineF)
    (s : QtLineAdapter) (delta : ℤ) : QtLineAdapter :=
  let l := s.line
  let l := setLength l (QtLineAdapter.resizeLength (length l) delta)
  { s with line := l, labelB := l.p2 }

/-! ## MainWindow: the key handler -/

/-- `Qt::Key_Space`, with its value in Qt's `qnamespace.h`. -/
def Key_Space : ℤ := 0x20

/-- `Qt::Key_W`. -/
def Key_W : ℤ := 0x57

/-- `Qt::Key_S`. -/
def Key_S : ℤ := 0x53

/-- `Qt::Key_A`. -/
def Key_A : ℤ := 0x41

/-- `Qt::Key_D`. -/
def Key_D : ℤ := 0x44

/-- `Qt::Key_Q`. -/
def Key_Q : ℤ := 0x51

/-- `Qt::Key_E`. -/
def Key_E : ℤ := 0x45

/-- `Qt::Key_Z`. -/
def Key_Z : ℤ := 0x5a

/-- `Qt::Key_C`. -/
def Key_C : ℤ := 0x43

/-- The state that `MainWindow::keyPressEvent` works on (main.cpp 273-274): `lines[0]` is
the `QtLineAdapter`, `lines[1]` the `CustomLine` (main.cpp 232-233), `index` selects. -/
structure MainWindow where
  /-- The line `lines[0]` -/
  line0 : QtLineAdapter
  /-- The line `lines[1]` -/
  line1 : CustomLine
  /-- The selector `index` -/
  index : Bool
  deriving DecidableEq, Repr

/-- The virtual call `lines[index]->move(dx, dy)`. -/
def MainWindow.move (w : MainWindow) (dx dy : ℤ) : MainWindow :=
  if w.index then { w with line1 := w.line1.move dx dy }
  else { w with line0 := w.line0.move dx dy }

/-- The virtual call `lines[index]->rotateClockwise()`. -/
def MainWindow.rotateClockwise (w : MainWindow) : MainWindow :=
  if w.index then { w with line1 := w.line1.rotateClockwise }
  else { w with line0 := w.line0.rotateClockwise }

/-- The virtual call `lines[index]->rotateCounterClockwise()`. -/
def MainWindow.rotateCounterClockwise (w : MainWindow) : MainWindow :=
  if w.index then { w with line1 := w.line1.rotateCounterClockwise }
  else { w with line0 := w.line0.rotateCounterClockwise }

/-- The virtual call `lines[index]->resize(delta)`. -/
def MainWindow.resizeLine (length : QLineF → ℚ) (setLength : QLineF → ℚ → QLineF)
    (w : MainWindow) (delta : ℤ) : MainWindow :=
  if w.index then { w with line1 := w.line1.resize delta }
  else { w with line0 := w.line0.resize length setLength delta }

/-- `MainWindow::keyPressEvent` (main.cpp 237-268) on the key code `event->key()`: the
`switch` with its nine cases and no `default`. -/
def MainWindow.keyPressEvent (length : QLineF → ℚ) (setLength : QLineF → ℚ → QLineF)
    (w : MainWindow) (key : ℤ) : MainWindow :=
  if key = Key_Space then { w with index := !w.index }
  else if key = Key_W then w.move 0 (-100)
  else if key = Key_S then w.move 0 100
  else if key = Key_A then w.move (-100) 0
  else if key = Key_D then w.move 100 0
  else if key = Key_Q then w.rotateCounterClockwise
  else if key = Key_E then w.rotateClockwise
  else if key = Key_Z then w.resizeLine length setLength (-10)
  else if key = Key_C then w.resizeLine length setLength 10
  else w

/-! ## Definitions used to state the properties -/

/-- The coordinate range of the properties of the rasterizer: magnitude at most `2^29`.
For end points in this range every `int` the code forms (the loop counter and its final
increment, the minor coordinate stepped by `±1`, `int(y) - 5`) stays inside the 32-bit range
over the at most `2^30 + 1` loop steps, so no conversion or `int` operation is undefined and
the loops return. When the coordinates are moreover integers, every `double` the code forms
is an integer below `2^53`, so no floating-point operation rounds. -/
def InRange (c : ℚ) : Prop := -536870912 ≤ c ∧ c ≤ 536870912

instance (c : ℚ) : Decidable (InRange c) :=
  inferInstanceAs (Decidable (-536870912 ≤ c ∧ c ≤ 536870912))

/-- The driving-axis coordinate of the end of the stepping loop of `drawLine`, after the
swap: the larger `x` on a shallow line, the larger `y` otherwise. -/
def drivingEnd (x1 y1 x2 y2 : ℚ) : ℚ :=
  if |y2 - y1| < |x2 - x1| then max x1 x2 else max y1 y2

/-- The steep case as the specification describes it: the shallow routine with the roles of
`x` and `y` exchanged, in the arguments and in the emitted pixels. -/
def drawLineHighSpec (x1 y1 x2 y2 : ℚ) : List Pixel :=
  (drawLineLow y1 x1 y2 x2).map Prod.swap

/-! ## Auxiliary facts -/

theorem toInt_intCast (n : ℤ) : toInt (n : ℚ) = n := by
  unfold toInt
  split <;> simp

theorem loopFuel_succ (v : ℤ) (bound : ℚ) (h : (v : ℚ) ≤ bound) :
    loopFuel v bound = loopFuel (v + 1) bound + 1 := by
  have h1 : v ≤ ⌊bound⌋ := Int.le_floor.mpr h
  unfold loopFuel
  omega

theorem loopFuel_stop (v : ℤ) (bound : ℚ) (h : ¬ (v : ℚ) ≤ bound) : loopFuel v bound = 0 := by
  have h1 : ¬ v ≤ ⌊bound⌋ := fun h2 => h (Int.le_floor.mp h2)
  unfold loopFuel
  omega

/-- With an integral abscissa the steep loop is the shallow loop with the two axes
exchanged. -/
theorem drawLineHighLoop_eq_swap (y2 : ℚ) (sx : ℤ) (dx dy : ℚ) :
    ∀ (n : ℕ) (x y : ℤ) (d : ℚ),
      drawLineHighLoop y2 sx dx dy n x y d
        = (drawLineLowLoop y2 sx dy dx n y (x : ℚ) d).map Prod.swap := by
  intro n
  induction n with
  | zero => intro x y d; rfl
  | succ n ih =>
    intro x y d
    simp only [drawLineHighLoop, drawLineLowLoop]
    by_cases hg : (y : ℚ) ≤ y2
    · by_cases hd : d > 0
      · simp only [hg, hd, if_true, List.map_cons, Prod.swap_prod_mk, toInt_intCast]
        rw [ih, Int.cast_add]
      · simp only [hg, hd, if_true, if_false, List.map_cons, Prod.swap_prod_mk, toInt_intCast]
        rw [ih]
    · simp [hg]

theorem drawLineHigh_eq_swap (x1 : ℤ) (y1 x2 y2 : ℚ) :
    drawLineHigh x1 y1 x2 y2 = (drawLineLow y1 x1 y2 x2).map Prod.swap := by
  simp only [drawLineHigh, drawLineLow, toInt_intCast, drawLineHighLoop_eq_swap]


/-! ## Integer end points: the closed form of the pixel sequence -/

theorem map_range_head? {α : Type} (f : ℕ → α) (n : ℕ) :
    ((List.range (n + 1)).map f).head? = some (f 0) := by
  rw [List.range_succ_eq_map]
  rfl

theorem map_range_getLast? {α : Type} (f : ℕ → α) (n : ℕ) :
    ((List.range (n + 1)).map f).getLast? = some (f n) := by
  rw [List.range_succ, List.map_append, List.map_singleton, List.getLast?_append]
  rfl

/-- The driving coordinates emitted by the loop of `drawLineLow`: consecutive integers
from the current `x`. -/
theorem drawLineLowLoop_fst (x1 : ℚ) (sy : ℤ) (dx dy : ℚ) :
    ∀ (n : ℕ) (x : ℤ) (y d : ℚ), n ≤ loopFuel x x1 →
      (drawLineLowLoop x1 sy dx dy n x y d).map Prod.fst
        = (List.range n).map (fun i : ℕ => x + (i : ℤ)) := by
  intro n
  induction n with
  | zero => intro x y d _; rfl
  | succ n ih =>
    intro x y d hn
    have hg : (x : ℚ) ≤ x1 := by
      by_contra hg
      rw [loopFuel_stop x x1 hg] at hn
      omega
    have hn1 : n ≤ loopFuel (x + 1) x1 := by
      rw [loopFuel_succ x x1 hg] at hn
      omega
    have e : (List.range (n + 1)).map (fun i : ℕ => x + (i : ℤ))
        = x :: (List.range n).map (fun i : ℕ => x + 1 + (i : ℤ)) := by
      rw [List.range_succ_eq_map, List.map_cons, List.map_map]
      congr 1
      · simp
      · apply List.map_congr_left
        intro i _
        simp only [Function.comp_apply, Nat.cast_succ]
        ring
    simp only [drawLineLowLoop, if_pos hg, List.map_cons]
    rw [e]
    congr 1
    split
    · exact ih (x + 1) _ _ hn1
    · exact ih (x + 1) _ _ hn1

theorem drawLineLow_fst (x0 y0 x1 y1 : ℚ) :
    (drawLineLow x0 y0 x1 y1).map Prod.fst
      = (List.range (loopFuel (toInt x0) x1)).map (fun i : ℕ => toInt x0 + (i : ℤ)) :=
  drawLineLowLoop_fst _ _ _ _ _ _ _ _ le_rfl

theorem drawLineHigh_snd (x1 y1 x2 y2 : ℚ) :
    (drawLineHigh x1 y1 x2 y2).map Prod.snd
      = (List.range (loopFuel (toInt y1) y2)).map (fun i : ℕ => toInt y1 + (i : ℤ)) := by
  unfold drawLineHigh
  simp only
  rw [drawLineHighLoop_eq_swap, List.map_map]
  exact drawLineLowLoop_fst _ _ _ _ _ _ _ _ le_rfl

/-- What a list whose image is a run of consecutive integers looks like at its two ends. -/
theorem ends_of_map_eq_range {α : Type} (l : List α) (f : α → ℤ) (a : ℤ) (n : ℕ)
    (h : l.map f = (List.range n).map (fun i : ℕ => a + (i : ℤ))) :
    (l ≠ [] ↔ n ≠ 0) ∧ (∀ p ∈ l.head?, f p = a) ∧ (∀ p ∈ l.getLast?, f p = a + n - 1) := by
  cases n with
  | zero =>
    have hl : l = [] := by simpa using h
    subst hl
    simp
  | succ k =>
    have h1 := congrArg List.head? h
    have h2 := congrArg List.getLast? h
    rw [map_range_head?, List.head?_map] at h1
    rw [map_range_getLast?, List.getLast?_map] at h2
    refine ⟨⟨fun _ => Nat.succ_ne_zero k, fun _ hl => ?_⟩, fun p hp => ?_, fun p hp => ?_⟩
    · subst hl
      simp at h1
    · rw [Option.mem_def] at hp
      rw [hp] at h1
      simpa using h1
    · rw [Option.mem_def] at hp
      rw [hp] at h2
      have : f p = a + (k : ℤ) := by simpa using h2
      rw [this]
      push_cast
      ring

theorem loopFuel_ne_zero (v : ℤ) (bound : ℚ) : loopFuel v bound ≠ 0 ↔ (v : ℚ) ≤ bound := by
  constructor
  · intro h
    by_contra hg
    exact h (loopFuel_stop v bound hg)
  · intro hg
    rw [loopFuel_succ v bound hg]
    exact Nat.succ_ne_zero _

theorem loopFuel_last (v : ℤ) (bound : ℚ) (h : (v : ℚ) ≤ bound) :
    v + (loopFuel v bound : ℤ) - 1 = ⌊bound⌋ := by
  have h1 : v ≤ ⌊bound⌋ := Int.le_floor.mpr h
  unfold loopFuel
  omega

theorem toInt_of_nonneg (q : ℚ) (h : 0 ≤ q) : toInt q = ⌊q⌋ := by
  unfold toInt
  rw [if_pos h]

/-- The two ends of the pixel sequence of `drawLineLow` along `x`. -/
theorem drawLineLow_driving_ends (x0 y0 x1 y1 : ℚ) :
    (drawLineLow x0 y0 x1 y1 ≠ [] ↔ (toInt x0 : ℚ) ≤ x1) ∧
      (∀ p ∈ (drawLineLow x0 y0 x1 y1).head?, p.1 = toInt x0) ∧
      (∀ p ∈ (drawLineLow x0 y0 x1 y1).getLast?, p.1 = ⌊x1⌋) := by
  obtain ⟨e1, e2, e3⟩ := ends_of_map_eq_range _ _ _ _ (drawLineLow_fst x0 y0 x1 y1)
  have hne : drawLineLow x0 y0 x1 y1 ≠ [] ↔ (toInt x0 : ℚ) ≤ x1 := by
    rw [e1, loopFuel_ne_zero]
  refine ⟨hne, e2, fun p hp => ?_⟩
  have hp0 : drawLineLow x0 y0 x1 y1 ≠ [] := by
    intro hnil
    rw [hnil] at hp
    simp at hp
  rw [e3 p hp, loopFuel_last _ _ (hne.mp hp0)]

/-- The two ends of the pixel sequence of `drawLineHigh` along `y`. -/
theorem drawLineHigh_driving_ends (x1 y1 x2 y2 : ℚ) :
    (drawLineHigh x1 y1 x2 y2 ≠ [] ↔ (toInt y1 : ℚ) ≤ y2) ∧
      (∀ p ∈ (drawLineHigh x1 y1 x2 y2).head?, p.2 = toInt y1) ∧
      (∀ p ∈ (drawLineHigh x1 y1 x2 y2).getLast?, p.2 = ⌊y2⌋) := by
  obtain ⟨e1, e2, e3⟩ := ends_of_map_eq_range _ _ _ _ (drawLineHigh_snd x1 y1 x2 y2)
  have hne : drawLineHigh x1 y1 x2 y2 ≠ [] ↔ (toInt y1 : ℚ) ≤ y2 := by
    rw [e1, loopFuel_ne_zero]
  refine ⟨hne, e2, fun p hp => ?_⟩
  have hp0 : drawLineHigh x1 y1 x2 y2 ≠ [] := by
    intro hnil
    rw [hnil] at hp
    simp at hp
  rw [e3 p hp, loopFuel_last _ _ (hne.mp hp0)]

/-- Truncation does not exceed a start that is non-negative or integral. -/
theorem toInt_le_of_nonneg_or_int (q : ℚ) (h : 0 ≤ q ∨ ∃ n : ℤ, q = n) : (toInt q : ℚ) ≤ q := by
  rcases h with h | ⟨n, hn⟩
  · rw [toInt_of_nonneg q h]
    exact Int.floor_le q
  · rw [hn, toInt_intCast]

/-- Floor and truncation agree on an end that is non-negative or integral. -/
theorem floor_eq_toInt (q : ℚ) (h : 0 ≤ q ∨ ∃ n : ℤ, q = n) : ⌊q⌋ = toInt q := by
  rcases h with h | ⟨n, hn⟩
  · rw [toInt_of_nonneg q h]
  · rw [hn, toInt_intCast, Int.floor_intCast]

/-- The dispatch of `drawLine` runs one of the two routines on the end points in one of the
two orders, with the driving coordinate of the start not above that of the end. -/
theorem drawLine_dispatch (x1 y1 x2 y2 : ℚ) :
    ((drawLine x1 y1 x2 y2).points = drawLineLow x1 y1 x2 y2 ∧ x1 ≤ x2) ∨
      ((drawLine x1 y1 x2 y2).points = drawLineLow x2 y2 x1 y1 ∧ x2 < x1) ∨
      ((drawLine x1 y1 x2 y2).points = drawLineHigh x1 y1 x2 y2 ∧ y1 ≤ y2) ∨
      ((drawLine x1 y1 x2 y2).points = drawLineHigh x2 y2 x1 y1 ∧ y2 < y1) := by
  unfold drawLine
  simp only
  by_cases c : |y2 - y1| < |x2 - x1|
  · by_cases g : x1 > x2
    · rw [if_pos c, if_pos g]
      exact Or.inr (Or.inl ⟨rfl, g⟩)
    · rw [if_pos c, if_neg g]
      exact Or.inl ⟨rfl, not_lt.mp g⟩
  · by_cases g : y1 > y2
    · rw [if_neg c, if_pos g]
      exact Or.inr (Or.inr (Or.inr ⟨rfl, g⟩))
    · rw [if_neg c, if_neg g]
      exact Or.inr (Or.inr (Or.inl ⟨rfl, not_lt.mp g⟩))

/-! ### The step budget and the driving axis -/

/-- C5: for all end points, `drawLine(x1,y1,x2,y2)` and `drawLine(x2,y2,x1,y1)` emit the same
pixels (even in the same order), so the same set of pixels; `(4,4)-(0,0)` emits the pixel set
of `(0,0)-(4,4)`. -/
theorem drawLine_endpoint_order (x1 y1 x2 y2 : ℚ) :
    (drawLine x1 y1 x2 y2).points = (drawLine x2 y2 x1 y1).points ∧
      (∀ p : Pixel, p ∈ (drawLine x1 y1 x2 y2).points ↔ p ∈ (drawLine x2 y2 x1 y1).points) ∧
      (∀ p : Pixel, p ∈ (drawLine 4 4 0 0).points ↔ p ∈ (drawLine 0 0 4 4).points) := by
  have key : ∀ a b c d : ℚ, (drawLine a b c d).points = (drawLine c d a b).points := by
    intro a b c d
    unfold drawLine
    simp only [abs_sub_comm b d, abs_sub_comm a c]
    by_cases h : |d - b| < |c - a|
    · simp only [if_pos h]
      have hne : c - a ≠ 0 := by
        intro h0
        rw [h0, abs_zero] at h
        exact absurd h (not_lt.mpr (abs_nonneg _))
      rcases lt_trichotomy a c with l | e | g
      · rw [if_neg (not_lt.mpr l.le), if_pos l]
      · exact absurd (by rw [e, sub_self]) hne
      · rw [if_pos g, if_neg (not_lt.mpr g.le)]
    · simp only [if_neg h]
      rcases lt_trichotomy b d with l | e | g
      · rw [if_neg (not_lt.mpr l.le), if_pos l]
      · subst e
        rw [sub_self, abs_zero, not_lt, abs_nonpos_iff, sub_eq_zero] at h
        subst h
        rfl
      · rw [if_pos g, if_neg (not_lt.mpr g.le)]
  exact ⟨key _ _ _ _, fun p => by rw [key], fun p => by rw [key]⟩
/-- C9 as stated fails on negative non-integral coordinates, where `int(...)` rounds up:
the line `(-1/2,0)-(-3/10,0)` starts its loop at `x = 0`, above the bound, and emits no
pixel; the line `(-3,0)-(-1/2,1)` ends at `x = -1`, while `int(-1/2)` is 0. -/
theorem drawLine_driving_ends_counterexample :
    (drawLine (-1 / 2) 0 (-3 / 10) 0).points = [] ∧
      (drawLine (-3) 0 (-1 / 2) 1).points = [(-3, 0), (-2, 0), (-1, 1)] ∧
      drivingEnd (-3) 0 (-1 / 2) 1 = -1 / 2 ∧
      toInt (-1 / 2) = 0 := by
  decide!

/-- C9, amended: for each of the two stepping routines of `drawLine`, on coordinates in
range, the pixel sequence is non-empty exactly when the truncated driving coordinate of the
start is not above the driving coordinate of the end; the first pixel has the truncated start
as driving coordinate and the last pixel has the floor of the end, the largest integer not
above it. `drawLine` runs one of the two routines with start and end ordered along the driving
axis. When the start is not above the end and is non-negative or integral the sequence is
non-empty, and when the end is non-negative or integral the floor is the truncation. -/
theorem drawLine_driving_ends (x1 y1 x2 y2 : ℚ)
    (_hx1 : InRange x1) (_hy1 : InRange y1) (_hx2 : InRange x2) (_hy2 : InRange y2) :
    ((drawLineLow x1 y1 x2 y2 ≠ [] ↔ (toInt x1 : ℚ) ≤ x2) ∧
        (∀ p ∈ (drawLineLow x1 y1 x2 y2).head?, p.1 = toInt x1) ∧
        (∀ p ∈ (drawLineLow x1 y1 x2 y2).getLast?, p.1 = ⌊x2⌋)) ∧
      ((drawLineHigh x1 y1 x2 y2 ≠ [] ↔ (toInt y1 : ℚ) ≤ y2) ∧
        (∀ p ∈ (drawLineHigh x1 y1 x2 y2).head?, p.2 = toInt y1) ∧
        (∀ p ∈ (drawLineHigh x1 y1 x2 y2).getLast?, p.2 = ⌊y2⌋)) ∧
      (((drawLine x1 y1 x2 y2).points = drawLineLow x1 y1 x2 y2 ∧ x1 ≤ x2) ∨
        ((drawLine x1 y1 x2 y2).points = drawLineLow x2 y2 x1 y1 ∧ x2 < x1) ∨
        ((drawLine x1 y1 x2 y2).points = drawLineHigh x1 y1 x2 y2 ∧ y1 ≤ y2) ∨
        ((drawLine x1 y1 x2 y2).points = drawLineHigh x2 y2 x1 y1 ∧ y2 < y1)) ∧
      (x1 ≤ x2 → (0 ≤ x1 ∨ ∃ n : ℤ, x1 = n) → drawLineLow x1 y1 x2 y2 ≠ []) ∧
      (y1 ≤ y2 → (0 ≤ y1 ∨ ∃ n : ℤ, y1 = n) → drawLineHigh x1 y1 x2 y2 ≠ []) ∧
      ((0 ≤ x2 ∨ ∃ n : ℤ, x2 = n) → ⌊x2⌋ = toInt x2) ∧
      ((0 ≤ y2 ∨ ∃ n : ℤ, y2 = n) → ⌊y2⌋ = toInt y2) := by
  have hl := drawLineLow_driving_ends x1 y1 x2 y2
  have hh := drawLineHigh_driving_ends x1 y1 x2 y2
  refine ⟨hl, hh, drawLine_dispatch x1 y1 x2 y2, fun hle hs => ?_, fun hle hs => ?_,
    floor_eq_toInt x2, floor_eq_toInt y2⟩
  · exact hl.1.mpr (le_trans (toInt_le_of_nonneg_or_int x1 hs) hle)
  · exact hh.1.mpr (le_trans (toInt_le_of_nonneg_or_int y1 hs) hle)

/-- C9, amended, at a concrete input: `drawLineLow(0, 0, 9/2, 1)` starts at `x = 0`, so it
emits pixels. -/
theorem drawLine_driving_ends_witness :
    (InRange 0 ∧ InRange (9 / 2) ∧ InRange 1) ∧ ((0 : ℚ) ≤ 9 / 2 ∧ (0 : ℚ) ≤ 0) ∧
      drawLineLow 0 0 (9 / 2) 1 ≠ [] :=
  ⟨by decide!, by decide!,
    (drawLine_driving_ends 0 0 (9 / 2) 1 (by decide!) (by decide!) (by decide!)
      (by decide!)).2.2.2.1 (by decide!) (Or.inl (by decide!))⟩

/-- C16: `drawLineHigh` is `drawLineLow` with `x` and `y` exchanged whenever its first
argument is integral, but not on every real input. On `drawLineHigh(-1/2, 0, 3/2, 3)` the
abscissa is truncated once, at `int(x1) = 0`, and then stepped as an `int`, while
`drawLineLow(0, -1/2, 3, 3/2)` keeps `y` as a `qreal` and truncates `-1/2`, `1/2`, `1/2`,
`3/2` at its `drawPoint` calls. -/
theorem drawLineHigh_transpose_diverges :
    drawLineHigh (-1 / 2) 0 (3 / 2) 3 = [(0, 0), (1, 1), (1, 2), (2, 3)] ∧
      drawLineHighSpec (-1 / 2) 0 (3 / 2) 3 = [(0, 0), (0, 1), (0, 2), (1, 3)] ∧
      drawLineHigh (-1 / 2) 0 (3 / 2) 3 ≠ drawLineHighSpec (-1 / 2) 0 (3 / 2) 3 ∧
      (∀ (a : ℤ) (b c d : ℚ), drawLineHigh a b c d = drawLineHighSpec a b c d) :=
  ⟨by decide!, by decide!, by decide!, fun a b c d => drawLineHigh_eq_swap a b c d⟩

/-- C6: `CustomLine::resize(delta)` sets `length` to `max(0, length + delta)`; so
`length ≥ 0` is preserved by `move`, `rotateClockwise`, `rotateCounterClockwise` and
`resize`, and a resize that would make the length negative leaves it at exactly 0. -/
theorem customLine_resize_clamps (s : CustomLine) (delta dx dy : ℤ) (h : 0 ≤ s.length) :
    (s.resize delta).length = max 0 (s.length + delta) ∧
      0 ≤ (s.resize delta).length ∧
      0 ≤ (s.move dx dy).length ∧
      0 ≤ s.rotateClockwise.length ∧
      0 ≤ s.rotateCounterClockwise.length ∧
      (s.length + delta < 0 → (s.resize delta).length = 0) := by
  have e : (s.resize delta).length = max 0 (s.length + delta) := by
    unfold CustomLine.resize
    simp only
    split
    · rw [max_eq_left (by linarith)]
    · rw [max_eq_right (by linarith)]
  refine ⟨e, ?_, h, h, h, ?_⟩
  · rw [e]; exact le_max_left _ _
  · intro hneg
    rw [e, max_eq_left hneg.le]

/-- C6, at a concrete state: length 10 resized by -20 is clamped to 0. -/
theorem customLine_resize_clamps_witness :
    (0 : ℚ) ≤ (CustomLine.mk (100, 200) 10 0).length ∧
      ((CustomLine.mk (100, 200) 10 0).resize (-20)).length = 0 :=
  ⟨by decide!,
    (customLine_resize_clamps (CustomLine.mk (100, 200) 10 0) (-20) 0 0 (by decide!)).2.2.2.2.2
      (by decide!)⟩

/-- C7 as stated fails: with length 10 the deltas -20 and 10 sum to -10, and the two resizes
leave the length at 10. -/
theorem customLine_resize_twice_counterexample :
    ¬ ∀ (s : CustomLine) (d1 d2 : ℤ), 0 ≤ s.length → ((d1 + d2 : ℤ) : ℚ) = -s.length →
        ((s.resize d1).resize d2).length = 0 := by
  intro h
  have h1 := h (CustomLine.mk (0, 0) 10 0) (-20) 10 (by decide!) (by decide!)
  revert h1
  decide!

/-- C7, amended: for deltas with `d1 + d2 = -length`, two resizes leave the length at exactly
0 if and only if the first one does not clamp (`0 ≤ length + d1`); when it clamps, the length
ends at `d2 = -(length + d1) > 0`. The length is never negative afterwards. -/
theorem customLine_resize_twice (s : CustomLine) (d1 d2 : ℤ)
    (h : ((d1 + d2 : ℤ) : ℚ) = -s.length) :
    (((s.resize d1).resize d2).length = 0 ↔ 0 ≤ s.length + d1) ∧
      (s.length + d1 < 0 → ((s.resize d1).resize d2).length = d2 ∧ (0 : ℚ) < d2) ∧
      0 ≤ ((s.resize d1).resize d2).length := by
  push_cast at h
  unfold CustomLine.resize
  simp only
  by_cases c : s.length + d1 < 0
  · have hd2 : (0 : ℚ) < d2 := by linarith
    have c2 : ¬ (0 : ℚ) + d2 < 0 := by linarith
    rw [if_pos c, if_neg c2, zero_add]
    exact ⟨⟨fun e => absurd e hd2.ne', fun e => absurd c (not_lt.mpr e)⟩,
      fun _ => ⟨rfl, hd2⟩, hd2.le⟩
  · have c2 : ¬ s.length + d1 + d2 < 0 := by linarith
    have e0 : s.length + d1 + d2 = 0 := by linarith
    rw [if_neg c, if_neg c2, e0]
    exact ⟨⟨fun _ => not_lt.mp c, fun _ => rfl⟩, fun e => absurd e c, le_refl _⟩

/-- C7, amended, at a concrete state: length 10 resized by -4 and then by -6 is 0. -/
theorem customLine_resize_twice_witness :
    (((-4 + -6 : ℤ) : ℤ) : ℚ) = -(CustomLine.mk (0, 0) 10 0).length ∧
      (((CustomLine.mk (0, 0) 10 0).resize (-4)).resize (-6)).length = 0 :=
  ⟨by decide!,
    (customLine_resize_twice (CustomLine.mk (0, 0) 10 0) (-4) (-6) (by decide!)).1.mpr
      (by decide!)⟩

/-- C8: on either variant `rotateClockwise` followed by `rotateCounterClockwise`, and the
other way round, restores the angle (`CustomLine`) or rotation (`QtLineAdapter`), and the
whole state with it; a single call changes it by exactly +30 or -30. -/
theorem rotate_round_trip (s : CustomLine) (q : QtLineAdapter) :
    s.rotateClockwise.rotateCounterClockwise.angle = s.angle ∧
      s.rotateCounterClockwise.rotateClockwise.angle = s.angle ∧
      s.rotateClockwise.angle = s.angle + 30 ∧
      s.rotateCounterClockwise.angle = s.angle - 30 ∧
      q.rotateClockwise.rotateCounterClockwise.rotation = q.rotation ∧
      q.rotateCounterClockwise.rotateClockwise.rotation = q.rotation ∧
      q.rotateClockwise.rotation = q.rotation + 30 ∧
      q.rotateCounterClockwise.rotation = q.rotation - 30 ∧
      s.rotateClockwise.rotateCounterClockwise = s ∧
      s.rotateCounterClockwise.rotateClockwise = s ∧
      q.rotateClockwise.rotateCounterClockwise = q ∧
      q.rotateCounterClockwise.rotateClockwise = q := by
  simp only [CustomLine.rotateClockwise, CustomLine.rotateCounterClockwise,
    QtLineAdapter.rotateClockwise, QtLineAdapter.rotateCounterClockwise,
    add_sub_cancel_right, sub_add_cancel, and_self]

/-- C10 as stated fails: with length 10 and delta -20 the sum is below zero and the length
passed to `setLength` is -10, neither 1 nor positive. -/
theorem qtLineAdapter_resize_counterexample :
    ¬ ∀ (len : ℚ) (delta : ℤ), 0 ≤ len → len + delta ≤ 0 →
        QtLineAdapter.resizeLength len delta = 1 ∧ 0 < QtLineAdapter.resizeLength len delta := by
  intro h
  have h1 := (h 10 (-20) (by decide!) (by decide!)).1
  revert h1
  decide!

/-- C10, amended: `QtLineAdapter::resize` passes `setLength` the minimum length 1 exactly
when `length + delta` is zero, and `length + delta` itself otherwise; the value it passes is
never zero, and it is positive whenever `length + delta` is not negative. -/
theorem qtLineAdapter_resize_length (len : ℚ) (delta : ℤ)
    (length : QLineF → ℚ) (setLength : QLineF → ℚ → QLineF) (s : QtLineAdapter) :
    (len + delta = 0 → QtLineAdapter.resizeLength len delta = 1) ∧
      (len + delta ≠ 0 → QtLineAdapter.resizeLength len delta = len + delta) ∧
      QtLineAdapter.resizeLength len delta ≠ 0 ∧
      (0 ≤ len + delta → 0 < QtLineAdapter.resizeLength len delta) ∧
      (QtLineAdapter.resize length setLength s delta).line
        = setLength s.line (QtLineAdapter.resizeLength (length s.line) delta) := by
  unfold QtLineAdapter.resizeLength
  refine ⟨fun h => by rw [if_neg (not_not.mpr h)], fun h => by rw [if_pos h], ?_, ?_, rfl⟩
  · split
    · assumption
    · exact one_ne_zero
  · intro h0
    split
    · rename_i hne
      exact lt_of_le_of_ne h0 (Ne.symm hne)
    · exact one_pos

/-- C10, amended, at a concrete state: length 10 resized by -10 is handed on as length 1. -/
theorem qtLineAdapter_resize_length_witness :
    (10 : ℚ) + ((-10 : ℤ) : ℚ) = 0 ∧ QtLineAdapter.resizeLength 10 (-10) = 1 :=
  ⟨by decide!,
    (qtLineAdapter_resize_length 10 (-10) (fun _ => 0) (fun l _ => l)
      (QtLineAdapter.mk (0, 0) 0 (QLineF.mk (0, 0) (0, 0)) (0, 0))).1 (by decide!)⟩
/-- C12: on the state of the self-rendering line each operation changes only its own field:
`move(dx,dy)` adds `(dx,dy)` to `origin` and keeps `length` and `angle`; the two rotations
keep `origin` and `length`; `resize` keeps `origin` and `angle`. -/
theorem customLine_frame (s : CustomLine) (dx dy delta : ℤ) :
    (s.move dx dy).origin = (s.origin.1 + dx, s.origin.2 + dy) ∧
      (s.move dx dy).length = s.length ∧
      (s.move dx dy).angle = s.angle ∧
      s.rotateClockwise.origin = s.origin ∧
      s.rotateClockwise.length = s.length ∧
      s.rotateCounterClockwise.origin = s.origin ∧
      s.rotateCounterClockwise.length = s.length ∧
      (s.resize delta).origin = s.origin ∧
      (s.resize delta).angle = s.angle :=
  ⟨rfl, rfl, rfl, rfl, rfl, rfl, rfl, rfl, rfl⟩

/-- C13: on the host-delegated line `move(dx,dy)` followed by `move(-dx,-dy)` restores the
position of the primitive exactly and leaves its rotation and line geometry (and the rest of
the state) unchanged. -/
theorem qtLineAdapter_move_round_trip (q : QtLineAdapter) (dx dy : ℤ) :
    ((q.move dx dy).move (-dx) (-dy)).pos = q.pos ∧
      ((q.move dx dy).move (-dx) (-dy)).rotation = q.rotation ∧
      ((q.move dx dy).move (-dx) (-dy)).line = q.line ∧
      (q.move dx dy).move (-dx) (-dy) = q ∧
      (q.move dx dy).pos = (q.pos.1 + dx, q.pos.2 + dy) ∧
      (q.move dx dy).rotation = q.rotation ∧
      (q.move dx dy).line = q.line := by
  have e : (q.move dx dy).move (-dx) (-dy) = q := by
    unfold QtLineAdapter.move
    simp only [Int.cast_neg, add_neg_cancel_right]
  rw [e]
  exact ⟨rfl, rfl, rfl, rfl, rfl, rfl, rfl⟩

/-- C14: in `MainWindow::keyPressEvent`, two Space events return the selector to its value
and change neither line (one Space event flips the selector only); every other key leaves the
selector unchanged; a key outside the nine mapped keys leaves the whole state unchanged. -/
theorem keyPressEvent_selector (length : QLineF → ℚ) (setLength : QLineF → ℚ → QLineF)
    (w : MainWindow) (key : ℤ) :
    MainWindow.keyPressEvent length setLength
        (MainWindow.keyPressEvent length setLength w Key_Space) Key_Space = w ∧
      (MainWindow.keyPressEvent length setLength w Key_Space).index = !w.index ∧
      (MainWindow.keyPressEvent length setLength w Key_Space).line0 = w.line0 ∧
      (MainWindow.keyPressEvent length setLength w Key_Space).line1 = w.line1 ∧
      (key ≠ Key_Space → (MainWindow.keyPressEvent length setLength w key).index = w.index) ∧
      (key ∉ [Key_Space, Key_W, Key_S, Key_A, Key_D, Key_Q, Key_E, Key_Z, Key_C] →
        MainWindow.keyPressEvent length setLength w key = w) := by
  refine ⟨?_, ?_, ?_, ?_, ?_, ?_⟩
  · simp only [MainWindow.keyPressEvent, if_true, Bool.not_not]
  · simp only [MainWindow.keyPressEvent, if_true]
  · simp only [MainWindow.keyPressEvent, if_true]
  · simp only [MainWindow.keyPressEvent, if_true]
  · intro h
    unfold MainWindow.keyPressEvent MainWindow.move MainWindow.rotateClockwise
      MainWindow.rotateCounterClockwise MainWindow.resizeLine
    rw [if_neg h]
    split_ifs <;> rfl
  · intro h
    simp only [List.mem_cons, List.mem_singleton, List.not_mem_nil, or_false, not_or] at h
    obtain ⟨h1, h2, h3, h4, h5, h6, h7, h8, h9⟩ := h
    unfold MainWindow.keyPressEvent
    rw [if_neg h1, if_neg h2, if_neg h3, if_neg h4, if_neg h5, if_neg h6, if_neg h7, if_neg h8,
      if_neg h9]

/-- C14, at concrete keys: the key code 0x42 (`B`) is not mapped and changes nothing, and
`W` (0x57) is not Space and keeps the selector. -/
theorem keyPressEvent_selector_witness :
    ((0x42 : ℤ) ∉ [Key_Space, Key_W, Key_S, Key_A, Key_D, Key_Q, Key_E, Key_Z, Key_C] ∧
      MainWindow.keyPressEvent (fun _ => 0) (fun l _ => l)
        (MainWindow.mk (QtLineAdapter.mk (0, 0) 0 (QLineF.mk (100, 100) (200, 100)) (200, 100))
          (CustomLine.mk (100, 200) 100 0) false) 0x42
        = MainWindow.mk (QtLineAdapter.mk (0, 0) 0 (QLineF.mk (100, 100) (200, 100)) (200, 100))
          (CustomLine.mk (100, 200) 100 0) false) ∧
    (Key_W ≠ Key_Space ∧
      (MainWindow.keyPressEvent (fun _ => 0) (fun l _ => l)
        (MainWindow.mk (QtLineAdapter.mk (0, 0) 0 (QLineF.mk (100, 100) (200, 100)) (200, 100))
          (CustomLine.mk (100, 200) 100 0) false) Key_W).index = false) :=
  ⟨⟨by decide, (keyPressEvent_selector (fun _ => 0) (fun l _ => l)
      (MainWindow.mk (QtLineAdapter.mk (0, 0) 0 (QLineF.mk (100, 100) (200, 100)) (200, 100))
        (CustomLine.mk (100, 200) 100 0) false) 0x42).2.2.2.2.2 (by decide)⟩,
   ⟨by decide, (keyPressEvent_selector (fun _ => 0) (fun l _ => l)
      (MainWindow.mk (QtLineAdapter.mk (0, 0) 0 (QLineF.mk (100, 100) (200, 100)) (200, 100))
        (CustomLine.mk (100, 200) 100 0) false) Key_W).2.2.2.2.1 (by decide)⟩⟩
end GraphicLab1
